import Mathlib

/-!
Verification of the `model_info` repository against its specification.

The development shallowly embeds the Python source under `src/model_info/`:

* `src/model_info/utils/text.py` — `stable_repr`, `object_id` (SHA-1 based),
  `short_scalar`;
* `src/model_info/collectors/neuralforecast_af_v2.py` — `flatten_config`,
  `PARAM_GROUP` / `classify_param`, and the first-write parameter-master
  update of `build_neuralforecast_af_v2`;
* `src/model_info/collectors/neuralforecast_catalog.py` —
  `_parse_automodel_family_map` and the qualname deduplication of
  `_collect_models_only`;
* `src/model_info/utils/web_cache.py` — `fetch_and_cache`.

Python values reaching these functions are modelled by the inductive `PyVal`:
scalars carry their Lean counterparts (`float` carries its textual `str()`
rendering, since only that rendering is ever consumed), containers carry their
entries in order (Python `dict` preserves insertion order), and any other
object is opaque and is modelled by the two attributes the code reads from it:
`str(type(x))` and `repr(x)`.

SHA-1 is implemented in full over `Nat` (32-bit words reduced mod `2 ^ 32`),
matching `hashlib.sha1(...).hexdigest()`; the standard test vectors are proved
below by kernel computation.
-/

set_option maxRecDepth 20000

/-- Number of characters of a Python string (`len(s)`). -/
def pyLen (s : String) : Nat := s.data.length

/-- Python slice `s[:n]` (by characters, like CPython on `str`). -/
def pySlice (s : String) (n : Nat) : String := String.mk (s.data.take n)

/-- Hex digit in the character class `[0-9a-fA-F]` of the regex in
`stable_repr` (`src/model_info/utils/text.py`). -/
def isHexDigitC (c : Char) : Bool :=
  (('0' ≤ c && c ≤ '9') || ('a' ≤ c && c ≤ 'f') || ('A' ≤ c && c ≤ 'F'))

/-- One pass of `re.sub(r"0x[0-9a-fA-F]+", "0xADDR", s)`: leftmost,
non-overlapping matches, maximal munch for `+`.  The fuel is the length of the
input; every step consumes at least one character, so the fuel never runs out
on the list the wrapper passes in. -/
def stableAux : Nat → List Char → List Char
  | 0, cs => cs
  | _ + 1, [] => []
  | fuel + 1, '0' :: rest =>
    match rest with
    | 'x' :: c :: rest2 =>
      if isHexDigitC c then
        '0' :: 'x' :: 'A' :: 'D' :: 'D' :: 'R' ::
          stableAux fuel (rest2.dropWhile isHexDigitC)
      else '0' :: stableAux fuel ('x' :: c :: rest2)
    | _ => '0' :: stableAux fuel rest
  | fuel + 1, c :: rest => c :: stableAux fuel rest

/-- `stable_repr` from `src/model_info/utils/text.py`, applied to the raw
`repr(x)` string: every `0x` + hex-digits substring is replaced by the fixed
placeholder `0xADDR`. -/
def stable_repr (s : String) : String :=
  String.mk (stableAux s.data.length s.data)

/- ### SHA-1 (`hashlib.sha1(...).hexdigest()`) -/

/-- `2 ^ 32`, the modulus for 32-bit words. -/
def M32 : Nat := 4294967296

/-- Rotate a 32-bit word left by `k` bits. -/
def rotl32 (n k : Nat) : Nat := ((n <<< k) % M32) ||| (n >>> (32 - k))

/-- UTF-8 encoding of one code point (as a list of byte values). -/
def utf8Char (c : Char) : List Nat :=
  let n := c.toNat
  if n < 128 then [n]
  else if n < 2048 then [192 + n / 64, 128 + n % 64]
  else if n < 65536 then [224 + n / 4096, 128 + (n / 64) % 64, 128 + n % 64]
  else [240 + n / 262144, 128 + (n / 4096) % 64, 128 + (n / 64) % 64,
        128 + n % 64]

/-- `s.encode("utf-8")` as a list of byte values. -/
def utf8Bytes (s : String) : List Nat := (s.data.map utf8Char).flatten

/-- Big-endian 8-byte rendering of the bit length. -/
def be8 (n : Nat) : List Nat :=
  [(n >>> 56) % 256, (n >>> 48) % 256, (n >>> 40) % 256, (n >>> 32) % 256,
   (n >>> 24) % 256, (n >>> 16) % 256, (n >>> 8) % 256, n % 256]

/-- SHA-1 message padding: append `0x80`, zero-pad to 56 mod 64 bytes, then
the 64-bit big-endian bit length. -/
def sha1Pad (bytes : List Nat) : List Nat :=
  let L := bytes.length
  bytes ++ 128 :: List.replicate ((119 - L % 64) % 64) 0 ++ be8 (8 * L)

/-- Big-endian 32-bit words from a byte list (length a multiple of 4). -/
def bytesToWords : List Nat → List Nat
  | b0 :: b1 :: b2 :: b3 :: rest =>
      (b0 * 16777216 + b1 * 65536 + b2 * 256 + b3) :: bytesToWords rest
  | _ => []

/-- Extend 16 schedule words to 80.  The accumulator holds the words produced
so far in reverse, so `w[i-3]`, `w[i-8]`, `w[i-14]`, `w[i-16]` are the
entries at positions 2, 7, 13, 15. -/
def sha1Extend : Nat → List Nat → List Nat
  | 0, acc => acc.reverse
  | n + 1, acc =>
      let w := rotl32 ((acc.getD 2 0) ^^^ (acc.getD 7 0) ^^^ (acc.getD 13 0)
        ^^^ (acc.getD 15 0)) 1
      sha1Extend n (w :: acc)

/-- The round function `f` of SHA-1. -/
def sha1F (i b c d : Nat) : Nat :=
  if i < 20 then (b &&& c) ||| ((4294967295 - b) &&& d)
  else if i < 40 then b ^^^ c ^^^ d
  else if i < 60 then (b &&& c) ||| (b &&& d) ||| (c &&& d)
  else b ^^^ c ^^^ d

/-- The round constant `k` of SHA-1. -/
def sha1K (i : Nat) : Nat :=
  if i < 20 then 1518500249
  else if i < 40 then 1859775393
  else if i < 60 then 2400959708
  else 3395469782

/-- The 80 compression rounds over the schedule words. -/
def sha1Rounds : List Nat → Nat → Nat → Nat → Nat → Nat → Nat →
    Nat × Nat × Nat × Nat × Nat
  | [], _, a, b, c, d, e => (a, b, c, d, e)
  | w :: ws, i, a, b, c, d, e =>
      let temp := (rotl32 a 5 + sha1F i b c d + e + sha1K i + w) % M32
      sha1Rounds ws (i + 1) temp a (rotl32 b 30) c d

/-- Process the 512-bit chunks (16 words each); leftover shorter than 16 words
cannot occur on padded input. -/
def sha1Chunks : List Nat → Nat → Nat → Nat → Nat → Nat →
    Nat × Nat × Nat × Nat × Nat
  | w0 :: w1 :: w2 :: w3 :: w4 :: w5 :: w6 :: w7 :: w8 :: w9 :: w10 :: w11 ::
      w12 :: w13 :: w14 :: w15 :: rest, h0, h1, h2, h3, h4 =>
      let ws := sha1Extend 64
        (List.reverse [w0, w1, w2, w3, w4, w5, w6, w7, w8, w9, w10, w11, w12,
          w13, w14, w15])
      let r := sha1Rounds ws 0 h0 h1 h2 h3 h4
      sha1Chunks rest ((h0 + r.1) % M32) ((h1 + r.2.1) % M32)
        ((h2 + r.2.2.1) % M32) ((h3 + r.2.2.2.1) % M32) ((h4 + r.2.2.2.2) % M32)
  | _, h0, h1, h2, h3, h4 => (h0, h1, h2, h3, h4)

/-- Lower-case hex digit. -/
def hexDigitChar (n : Nat) : Char :=
  if n < 10 then Char.ofNat (48 + n) else Char.ofNat (87 + n)

/-- Helper producing the low `k` hex digits of `n`, most significant first. -/
def toHexAux : Nat → Nat → List Char → List Char
  | 0, _, acc => acc
  | k + 1, n, acc => toHexAux k (n / 16) (hexDigitChar (n % 16) :: acc)

/-- Eight-digit lower-case hex rendering of a 32-bit word. -/
def toHex8 (n : Nat) : String := String.mk (toHexAux 8 n [])

/-- `hashlib.sha1(s.encode("utf-8")).hexdigest()`. -/
def sha1_hex (s : String) : String :=
  let r := sha1Chunks (bytesToWords (sha1Pad (utf8Bytes s)))
    1732584193 4023233417 2562383102 271733878 3285377520
  toHex8 r.1 ++ toHex8 r.2.1 ++ toHex8 r.2.2.1 ++ toHex8 r.2.2.2.1 ++
    toHex8 r.2.2.2.2

/-- `object_id` from `src/model_info/utils/text.py`.  In the embedding an
opaque Python value is given by the two attributes the function reads from
it, `str(type(x))` and `repr(x)`; the identifier is the first 12 hex digits
of the SHA-1 of `f"{type(x)}|{stable_repr(x)}"`. -/
def object_id (py_type rawRepr : String) : String :=
  pySlice (sha1_hex (py_type ++ "|" ++ stable_repr rawRepr)) 12


/- ### The value model and the config flattener
(`src/model_info/collectors/neuralforecast_af_v2.py`) -/

mutual
/-- A Python value as seen by `flatten_config`: `dict` / `list` / `tuple`
keep their entries in order; the five members of `SCALAR_TYPES`
(`NoneType, bool, int, float, str`) are scalars (`float` carries its textual
`str()` rendering); every other object is opaque and is modelled by
`str(type(x))` and `repr(x)`, the only attributes the code reads. -/
inductive PyVal : Type where
  | none : PyVal
  | bool : Bool → PyVal
  | int : Int → PyVal
  | float : String → PyVal
  | str : String → PyVal
  | dict : PyFields → PyVal
  | list : PyItems → PyVal
  | tuple : PyItems → PyVal
  | obj : (py_type : String) → (rawRepr : String) → PyVal
/-- Entries of a Python `dict` in insertion order (keys string-coerced). -/
inductive PyFields : Type where
  | nil : PyFields
  | cons : String → PyVal → PyFields → PyFields
/-- Elements of a Python `list` / `tuple` in order. -/
inductive PyItems : Type where
  | nil : PyItems
  | cons : PyVal → PyItems → PyItems
end

deriving instance DecidableEq for PyVal, PyFields, PyItems

/-- `isinstance(x, SCALAR_TYPES)` for the embedded value. -/
def isScalar : PyVal → Bool
  | .none | .bool _ | .int _ | .float _ | .str _ => true
  | _ => false

/-- `str(x)` for a scalar value — the textual rendering the CSV writer
ultimately receives (`str` of a `str` is itself). -/
def scalar_text : PyVal → String
  | .none => "None"
  | .bool b => if b then "True" else "False"
  | .int i => toString i
  | .float rep => rep
  | .str s => s
  | _ => ""

/-- `short_scalar` from `src/model_info/utils/text.py`: strings longer than
`max_len` characters are cut to `max_len - 3` characters plus `"..."`;
every non-`str` value is returned unchanged. -/
def short_scalar (x : PyVal) (max_len : Nat) : PyVal :=
  match x with
  | .str s => if max_len < pyLen s then .str (pySlice s (max_len - 3) ++ "...")
              else .str s
  | v => v

/-- One row appended to `config_rows` by `flatten_config` (`value_scalar`
holds the Python value itself; the code stores the empty string there for
object rows, which is `.str ""` in the embedding). -/
structure ConfigEntryRecord where
  auto_name : String
  key_path : String
  value_kind : String
  value_scalar : PyVal
  value_obj_id : String
deriving DecidableEq

/-- One row of the deduplicated object pool `obj_rows`
(`{"obj_id": oid, "py_type": str(type(obj)), "repr": stable_repr(obj)}`). -/
structure ObjectRecord where
  obj_id : String
  py_type : String
  repr : String
deriving DecidableEq

/-- `kp = f"{key_path}.{k}" if key_path else str(k)` (the empty string is
falsy in Python). -/
def joinKey (key_path : String) (k : String) : String :=
  if key_path = "" then k else key_path ++ "." ++ k

mutual
/-- `flatten_config` from `src/model_info/collectors/neuralforecast_af_v2.py`.
The Python function mutates `config_rows` (a list) and `obj_rows` (an
insertion-ordered dict keyed by `obj_id`); the embedding threads both through
and returns the final pair. -/
def flatten_config (auto_name : String) (obj : PyVal) (key_path : String)
    (config_rows : List ConfigEntryRecord) (obj_rows : List ObjectRecord) :
    List ConfigEntryRecord × List ObjectRecord :=
  match obj with
  | .dict entries => flattenFields auto_name entries key_path config_rows obj_rows
  | .list elems => flattenItems auto_name elems key_path 0 config_rows obj_rows
  | .tuple elems => flattenItems auto_name elems key_path 0 config_rows obj_rows
  | .obj ty rawRepr =>
      let oid := object_id ty rawRepr
      let obj_rows2 :=
        if obj_rows.any (fun r => r.obj_id = oid) then obj_rows
        else obj_rows ++ [⟨oid, ty, stable_repr rawRepr⟩]
      (config_rows ++ [⟨auto_name, key_path, "object", .str "", oid⟩], obj_rows2)
  | v =>
      (config_rows ++ [⟨auto_name, key_path, "scalar", short_scalar v 80, ""⟩],
       obj_rows)
/-- The `for k, v in obj.items()` loop of `flatten_config`. -/
def flattenFields (auto_name : String) (fs : PyFields) (key_path : String)
    (config_rows : List ConfigEntryRecord) (obj_rows : List ObjectRecord) :
    List ConfigEntryRecord × List ObjectRecord :=
  match fs with
  | .nil => (config_rows, obj_rows)
  | .cons k v rest =>
      let st := flatten_config auto_name v (joinKey key_path k) config_rows obj_rows
      flattenFields auto_name rest key_path st.1 st.2
/-- The `for i, v in enumerate(obj)` loop of `flatten_config`. -/
def flattenItems (auto_name : String) (xs : PyItems) (key_path : String)
    (i : Nat) (config_rows : List ConfigEntryRecord)
    (obj_rows : List ObjectRecord) :
    List ConfigEntryRecord × List ObjectRecord :=
  match xs with
  | .nil => (config_rows, obj_rows)
  | .cons v rest =>
      let st := flatten_config auto_name v (joinKey key_path (toString i))
        config_rows obj_rows
      flattenItems auto_name rest key_path (i + 1) st.1 st.2
end

/- ### Parameter classification and the parameter master table
(`src/model_info/collectors/neuralforecast_af_v2.py`) -/

/-- The static `PARAM_GROUP` lookup table. -/
def PARAM_GROUP : List (String × String) :=
  [("h", "forecasting"), ("loss", "loss"), ("valid_loss", "loss"),
   ("config", "search_space"), ("search_alg", "search_space"),
   ("num_samples", "search_space"), ("backend", "search_space"),
   ("callbacks", "search_space"), ("cpus", "resources"), ("gpus", "resources"),
   ("refit_with_val", "workflow"), ("verbose", "workflow"),
   ("alias", "workflow"), ("S", "hierarchical"), ("cls_model", "hierarchical"),
   ("reconciliation", "hierarchical"), ("n_series", "data")]

/-- First-match association lookup (Python `dict` lookup on distinct keys). -/
def alookup : List (String × String) → String → Option String
  | [], _ => Option.none
  | (k, v) :: rest, q => if k = q then some v else alookup rest q

/-- `classify_param`: `PARAM_GROUP.get(pname, "other")`. -/
def classify_param (pname : String) : String :=
  match alookup PARAM_GROUP pname with
  | some g => g
  | Option.none => "other"

/-- One row of the parameter master table `params_master`.  The third source
column is named `annotation`; here the field is `annot`. -/
structure ParamRecord where
  param : String
  param_group : String
  annot : String
deriving DecidableEq

/-- The `if pname not in params_master:` update in
`build_neuralforecast_af_v2`: a parameter name is written at most once, with
its group classification and annotation fixed at first sight. -/
def params_master_step (m : List ParamRecord) (pname annot : String) :
    List ParamRecord :=
  if m.any (fun r => r.param = pname) then m
  else m ++ [⟨pname, classify_param pname, annot⟩]

/-- Folding `params_master_step` over the `(pname, annotation)` pairs in the
order the collection loop encounters them. -/
def build_params_master :
    List (String × String) → List ParamRecord → List ParamRecord
  | [], m => m
  | (pname, annot) :: rest, m =>
      build_params_master rest (params_master_step m pname annot)

/- ### The model catalog rows and their deduplication
(`src/model_info/collectors/neuralforecast_catalog.py`) -/

/-- One row collected by `_collect_models_only` / `_collect_auto_models`. -/
structure CatalogRow where
  kind : String
  name : String
  module : String
  qualname : String
  doc : String
deriving DecidableEq

/-- Helper for the qualname deduplication, carrying the set of qualnames
already kept. -/
def dropDupFirst (seen : List String) : List CatalogRow → List CatalogRow
  | [] => []
  | r :: rest =>
      if r.qualname ∈ seen then dropDupFirst seen rest
      else r :: dropDupFirst (r.qualname :: seen) rest

/-- `df.drop_duplicates(subset=["qualname"])` as applied in
`_collect_models_only` (pandas defaults to `keep="first"`): the first row of
each qualname is kept, later ones are dropped, order is preserved. -/
def drop_duplicates_qualname (rows : List CatalogRow) : List CatalogRow :=
  dropDupFirst [] rows

/- ### The family taxonomy parser
(`_parse_automodel_family_map` in
`src/model_info/collectors/neuralforecast_catalog.py`) -/

/-- Whether the needle starts the haystack. -/
def listStartsWith : List Char → List Char → Bool
  | [], _ => true
  | _ :: _, [] => false
  | n :: ns, h :: hs => if n = h then listStartsWith ns hs else false

/-- Substring test over char lists (Python `needle in hay`). -/
def containsAux (nd : List Char) : List Char → Bool
  | [] => listStartsWith nd []
  | c :: rest => listStartsWith nd (c :: rest) || containsAux nd rest

/-- Python `needle in hay` on strings. -/
def containsSub (hay needle : String) : Bool := containsAux needle.data hay.data

/-- Scan for the first `'>'`; `some rest` is the text after it. -/
def tagEndGo : List Char → Option (List Char)
  | [] => Option.none
  | c :: rest => if c = '>' then some rest else tagEndGo rest

/-- A match of `<[^>]+>` starting right after a `'<'` needs at least one
non-`'>'` character before the closing `'>'`. -/
def findTagEnd : List Char → Option (List Char)
  | [] => Option.none
  | c :: rest => if c = '>' then Option.none else tagEndGo rest

/-- `re.sub(r"<[^>]+>", "\n", html)`: each tag becomes one newline; a `'<'`
with no closing `'>'` (or immediately followed by `'>'`) is left as is.  Fuel
is the input length; every step consumes at least one character. -/
def tagSubFuel : Nat → List Char → List Char
  | 0, cs => cs
  | _ + 1, [] => []
  | fuel + 1, c :: rest =>
      if c = '<' then
        match findTagEnd rest with
        | some rest2 => '\n' :: tagSubFuel fuel rest2
        | Option.none => c :: tagSubFuel fuel rest
      else c :: tagSubFuel fuel rest

/-- `text.splitlines()` restricted to the `\n` / `\r\n` / `\r` line breaks
(the only ones arising here); unlike Python a trailing break yields a final
empty piece, which the caller filters out anyway. -/
def splitLinesAux : List Char → List Char → List String
  | acc, [] => [String.mk acc.reverse]
  | acc, '\r' :: '\n' :: rest => String.mk acc.reverse :: splitLinesAux [] rest
  | acc, '\n' :: rest => String.mk acc.reverse :: splitLinesAux [] rest
  | acc, '\r' :: rest => String.mk acc.reverse :: splitLinesAux [] rest
  | acc, c :: rest => splitLinesAux (c :: acc) rest

/-- ASCII whitespace stripped by `str.strip()`. -/
def pyIsSpace (c : Char) : Bool :=
  c = ' ' || c = '\t' || c = '\n' || c = '\r' || c = '\x0b' || c = '\x0c'

/-- `ln.strip()`. -/
def pyStrip (s : String) : String :=
  String.mk (((s.data.dropWhile pyIsSpace).reverse.dropWhile pyIsSpace).reverse)

/-- `[ln.strip() for ln in text.splitlines() if ln.strip()]`. -/
def cleanLines (text : String) : List String :=
  ((splitLinesAux [] text.data).map pyStrip).filter (fun ln => ln ≠ "")

/-- The header test of the parser loop: a case-SENSITIVE substring test
against the five fixed section labels, exactly as in the source. -/
def headerHit (ln : String) : Bool :=
  containsSub ln "RNN-Based Models" || containsSub ln "Transformer-Based Models"
  || containsSub ln "CNN-Based Models" || containsSub ln "Linear and MLP Models"
  || containsSub ln "Specialized Models"

/-- `s.lower()` (ASCII; the needles compared against are ASCII). -/
def lowerStr (s : String) : String := String.mk (s.data.map Char.toLower)

/-- The inner `norm` of `_parse_automodel_family_map`: classify a detected
header line into a family label, case-insensitively. -/
def normFamily (h : String) : String :=
  let hl := lowerStr h
  if containsSub hl "rnn-based" then "RNN"
  else if containsSub hl "transformer-based" then "Transformer"
  else if containsSub hl "cnn-based" then "CNN"
  else if containsSub hl "linear" || containsSub hl "mlp" then "Linear/MLP"
  else if containsSub hl "specialized" then "Specialized"
  else "Other"

/-- Word character of the class `[A-Za-z0-9_]` used by the identifier
pattern (and, for the `\b` boundaries, by `\w` on the ASCII inputs here). -/
def isWordChar (c : Char) : Bool := c.isAlpha || c.isDigit || c = '_'

/-- `re.findall(r"\bAuto[A-Za-z0-9_]+\b", ln)`: left-to-right,
non-overlapping, maximal munch; `Auto` must not be preceded by a word
character and must be followed by at least one word character.  Fuel is the
line length. -/
def findAutoFuel : Nat → Bool → List Char → List String
  | 0, _, _ => []
  | _ + 1, _, [] => []
  | fuel + 1, prevW, c :: rest =>
      match c, rest with
      | 'A', 'u' :: 't' :: 'o' :: c2 :: rest2 =>
          if !prevW && isWordChar c2 then
            String.mk ('A' :: 'u' :: 't' :: 'o' :: c2 ::
                rest2.takeWhile isWordChar) ::
              findAutoFuel fuel true (rest2.dropWhile isWordChar)
          else findAutoFuel fuel (isWordChar c) rest
      | _, _ => findAutoFuel fuel (isWordChar c) rest

/-- All `Auto…` identifiers of one line, in order. -/
def findAuto (ln : String) : List String :=
  findAutoFuel ln.data.length false ln.data

/-- `fam_map[n] = family`: Python dict assignment — an existing key keeps its
position and gets the new value, a new key is appended. -/
def dictSet (m : List (String × String)) (k v : String) :
    List (String × String) :=
  if m.any (fun p => p.1 = k) then
    m.map (fun p => if p.1 = k then (k, v) else p)
  else m ++ [(k, v)]

/-- `for n in names: fam_map[n] = family`. -/
def insertNames (m : List (String × String)) (names : List String)
    (f : String) : List (String × String) :=
  match names with
  | [] => m
  | n :: rest => insertNames (dictSet m n f) rest f

/-- The line loop of `_parse_automodel_family_map`: `family` starts as
`None`; a header line switches it (and is otherwise skipped); identifier
lines are scanned only while a family is active. -/
def parseLoop : Option String → List String → List (String × String) →
    List (String × String)
  | _, [], m => m
  | fam, ln :: rest, m =>
      if headerHit ln then parseLoop (some (normFamily ln)) rest m
      else
        match fam with
        | Option.none => parseLoop Option.none rest m
        | some f => parseLoop (some f) rest (insertNames m (findAuto ln) f)

/-- `_parse_automodel_family_map` from
`src/model_info/collectors/neuralforecast_catalog.py`. -/
def parse_automodel_family_map (html : String) : List (String × String) :=
  parseLoop Option.none
    (cleanLines (String.mk (tagSubFuel html.data.length html.data))) []

/- ### The web cache (`src/model_info/utils/web_cache.py`) -/

/-- An HTTP response as `fetch_and_cache` consumes it. -/
structure HttpResp where
  status_code : Nat
  text : String

/-- File lookup in the modelled file system (an association list from path
to text content). -/
def fsRead : List (String × String) → String → Option String
  | [], _ => Option.none
  | (p, t) :: rest, q => if p = q then some t else fsRead rest q

/-- `p.write_text(text)`: overwrite or create. -/
def fsWrite : List (String × String) → String → String →
    List (String × String)
  | [], q, t => [(q, t)]
  | (p, u) :: rest, q, t =>
      if p = q then (q, t) :: rest else (p, u) :: fsWrite rest q t

/-- `fetch_and_cache` from `src/model_info/utils/web_cache.py`.  The network
is a function from URL and timeout to a response; `raise_for_status` raises
exactly for status codes in `[400, 600)`, modelled as the `.error` result;
the file system is threaded through and returned. -/
def fetch_and_cache (net : String → Nat → HttpResp)
    (fs : List (String × String)) (url cache_path : String) (timeout : Nat)
    (force : Bool) : Except String String × List (String × String) :=
  match fsRead fs cache_path, force with
  | some txt, false => (.ok txt, fs)
  | _, _ =>
      let r := net url timeout
      if 400 ≤ r.status_code ∧ r.status_code < 600 then (.error "HTTPError", fs)
      else (.ok r.text, fsWrite fs cache_path r.text)

/- ### Auxiliary values used by the theorems -/

/-- A mapping nested to depth `n`: `{"k": {"k": ... 0 ...}}`. -/
def nestDepth : Nat → PyVal
  | 0 => .int 0
  | n + 1 => .dict (.cons "k" (nestDepth n) .nil)

/-- A Python list of opaque objects of one declared type, given by their raw
`repr` strings. -/
def objList (ty : String) : List String → PyItems
  | [] => .nil
  | r :: rest => .cons (.obj ty r) (objList ty rest)

/-- The identifier the pool is keyed by, as a function of the declared type
and the already-stabilized representation. -/
def oidOf (ty sr : String) : String :=
  pySlice (sha1_hex (ty ++ "|" ++ sr)) 12

/- ### Theorems -/

/-- SHA-1 test vector: `sha1("abc")`. -/
theorem sha1_hex_abc :
    sha1_hex "abc" = "a9993e364706816aba3e25717850c26c9cd0d89d" := by decide

/-- SHA-1 test vector: the empty message. -/
theorem sha1_hex_empty :
    sha1_hex "" = "da39a3ee5e6b4b0d3255bfef95601890afd80709" := by decide

/-- SHA-1 test vector crossing one block boundary (64 bytes of `a`). -/
theorem sha1_hex_64a :
    sha1_hex "aaaaaaaaaaaaaaaaaaaaaaaaaaaaaaaaaaaaaaaaaaaaaaaaaaaaaaaaaaaaaaaa"
      = "0098ba824b5c16427bd7a1122a5a442a25ec644d" := by decide

/-- Flattening any scalar appends exactly one `"scalar"` row holding
`short_scalar` of the value and returns the pool untouched. -/
theorem flatten_scalar (v : PyVal) (h : isScalar v = true) (a kp : String)
    (rows : List ConfigEntryRecord) (pool : List ObjectRecord) :
    flatten_config a v kp rows pool =
      (rows ++ [⟨a, kp, "scalar", short_scalar v 80, ""⟩], pool) := by
  cases v <;> first | rfl | simp [isScalar] at h

/-- C3: for every scalar input (`None`, `bool`, `int`, `float`, `str`),
`flatten_config` appends exactly one `ConfigEntryRecord` with
`value_kind = "scalar"` and returns the object pool exactly as it received
it — no insertion, no modification. -/
theorem C3_scalar_one_entry_pool_untouched (v : PyVal) (h : isScalar v = true)
    (a kp : String) (rows : List ConfigEntryRecord)
    (pool : List ObjectRecord) :
    flatten_config a v kp rows pool =
      (rows ++ [⟨a, kp, "scalar", short_scalar v 80, ""⟩], pool) :=
  flatten_scalar v h a kp rows pool

/-- Witness for C3 at the concrete scalar `5`. -/
theorem C3_scalar_one_entry_pool_untouched_witness :
    isScalar (.int 5) = true ∧
    flatten_config "AutoRNN" (.int 5) "default_config.h" [] [] =
      ([⟨"AutoRNN", "default_config.h", "scalar", .int 5, ""⟩], []) :=
  ⟨by decide,
   C3_scalar_one_entry_pool_untouched (.int 5) (by decide) "AutoRNN"
     "default_config.h" [] []⟩

/-- The stored form of a string scalar never exceeds 80 characters. -/
theorem pyLen_short_str (s : String) :
    pyLen (scalar_text (short_scalar (.str s) 80)) ≤ 80 := by
  simp only [short_scalar]
  by_cases hl : 80 < pyLen s
  · rw [if_pos hl]
    show pyLen (pySlice s 77 ++ "...") ≤ 80
    have e : (pySlice s 77 ++ "...").data = s.data.take 77 ++ "...".data :=
      String.data_append _ _
    unfold pyLen
    rw [e, List.length_append, List.length_take]
    have h3 : "...".data.length = 3 := rfl
    omega
  · rw [if_neg hl]
    unfold pyLen at hl ⊢
    exact Nat.le_of_not_lt hl

/-- C4 counterexample: `short_scalar` truncates only strings.  Flattening the
scalar `10 ^ 100` (a 101-digit integer) emits one scalar entry whose stored
value renders to 101 > 80 characters — the claim "the stored scalar value's
textual length never exceeds 80" fails on it. -/
theorem C4_counterexample :
    ((flatten_config "A" (.int (10 ^ 100)) "k" [] []).1.map
        (fun r => pyLen (scalar_text r.value_scalar))) = [101]
    ∧ ¬ (101 ≤ 80) := by
  exact ⟨by decide, by decide⟩

/-- C4 (amended): the flattener stores `short_scalar` of each scalar; a
STRING scalar is thereby truncated to at most 80 characters, cut to 77
characters plus the `"..."` ellipsis exactly when it exceeds 80, and left
unchanged otherwise; every non-string scalar is stored unchanged (so its
textual rendering may exceed 80 characters). -/
theorem C4_string_truncation (v : PyVal) (h : isScalar v = true)
    (a kp : String) (rows : List ConfigEntryRecord)
    (pool : List ObjectRecord) :
    (flatten_config a v kp rows pool).1 =
        rows ++ [⟨a, kp, "scalar", short_scalar v 80, ""⟩]
    ∧ (∀ s : String, v = .str s →
        pyLen (scalar_text (short_scalar v 80)) ≤ 80)
    ∧ (∀ s : String, 80 < pyLen s →
        short_scalar (.str s) 80 = .str (pySlice s 77 ++ "..."))
    ∧ (∀ s : String, v = .str s → ¬ 80 < pyLen s → short_scalar v 80 = v)
    ∧ ((∀ s : String, v ≠ .str s) → short_scalar v 80 = v) := by
  refine ⟨by rw [flatten_scalar v h a kp rows pool], ?_, ?_, ?_, ?_⟩
  · rintro s rfl
    exact pyLen_short_str s
  · intro s hl
    simp only [short_scalar]
    rw [if_pos hl]
  · rintro s rfl hl
    simp only [short_scalar]
    rw [if_neg hl]
  · intro hns
    cases v with
    | str s => exact absurd rfl (hns s)
    | _ => rfl

/-- Witness for C4 at a concrete 81-character string, checking the exact
truncated form. -/
theorem C4_string_truncation_witness :
    isScalar (.str "aaaaaaaaaaaaaaaaaaaaaaaaaaaaaaaaaaaaaaaaaaaaaaaaaaaaaaaaaaaaaaaaaaaaaaaaaaaaaaaaa") = true
    ∧ 80 < pyLen "aaaaaaaaaaaaaaaaaaaaaaaaaaaaaaaaaaaaaaaaaaaaaaaaaaaaaaaaaaaaaaaaaaaaaaaaaaaaaaaaa"
    ∧ short_scalar (.str "aaaaaaaaaaaaaaaaaaaaaaaaaaaaaaaaaaaaaaaaaaaaaaaaaaaaaaaaaaaaaaaaaaaaaaaaaaaaaaaaa") 80 =
        .str "aaaaaaaaaaaaaaaaaaaaaaaaaaaaaaaaaaaaaaaaaaaaaaaaaaaaaaaaaaaaaaaaaaaaaaaaaaaaa..." :=
  ⟨by decide, by decide,
   by
    have := (C4_string_truncation
      (.str "aaaaaaaaaaaaaaaaaaaaaaaaaaaaaaaaaaaaaaaaaaaaaaaaaaaaaaaaaaaaaaaaaaaaaaaaaaaaaaaaa")
      (by decide) "A" "k" [] []).2.2.1
      "aaaaaaaaaaaaaaaaaaaaaaaaaaaaaaaaaaaaaaaaaaaaaaaaaaaaaaaaaaaaaaaaaaaaaaaaaaaaaaaaa"
      (by decide)
    rw [this]
    decide⟩

/-- C5: `flatten_config` terminates on every value of the embedding — all of
which are finite and acyclic, there being no cyclic values in an inductive
type — and it has no depth limit: at every nesting depth `n` it still runs to
completion and emits exactly one entry for the single leaf, leaving the pool
untouched.  (The non-termination of the Python original on self-referential
structures has no counterpart here: the totality of `flatten_config` as a
Lean function is exactly the termination claim for the acyclic case.) -/
theorem C5_flatten_terminates_at_any_depth (n : Nat) (a kp : String)
    (rows : List ConfigEntryRecord) (pool : List ObjectRecord) :
    (flatten_config a (nestDepth n) kp rows pool).1.length = rows.length + 1
    ∧ (flatten_config a (nestDepth n) kp rows pool).2 = pool := by
  induction n generalizing kp rows pool with
  | zero =>
      simp [nestDepth, flatten_config]
  | succ n ih =>
      simp only [nestDepth, flatten_config, flattenFields]
      exact ih (joinKey kp "k") rows pool

/-- C6: flattening `{"a": 1, "b": [2, 3]}` from the starting key path
`"cfg"` yields exactly three records, all with `value_kind = "scalar"`, at
the key paths `cfg.a`, `cfg.b.0`, `cfg.b.1` (keys and indices joined with a
dot), and adds nothing to the object pool. -/
theorem C6_nested_example :
    (flatten_config "A"
        (.dict (.cons "a" (.int 1)
          (.cons "b" (.list (.cons (.int 2) (.cons (.int 3) .nil))) .nil)))
        "cfg" [] []).1.map (fun r => (r.key_path, r.value_kind)) =
      [("cfg.a", "scalar"), ("cfg.b.0", "scalar"), ("cfg.b.1", "scalar")]
    ∧ (flatten_config "A"
        (.dict (.cons "a" (.int 1)
          (.cons "b" (.list (.cons (.int 2) (.cons (.int 3) .nil))) .nil)))
        "cfg" [] []).2 = [] := by
  exact ⟨by decide, by decide⟩

/-- C9: an empty mapping and an empty list or tuple produce no
`ConfigEntryRecord` at all and leave the pool unchanged — the key path of an
empty container vanishes from the output. -/
theorem C9_empty_containers_vanish (a kp : String)
    (rows : List ConfigEntryRecord) (pool : List ObjectRecord) :
    flatten_config a (.dict .nil) kp rows pool = (rows, pool)
    ∧ flatten_config a (.list .nil) kp rows pool = (rows, pool)
    ∧ flatten_config a (.tuple .nil) kp rows pool = (rows, pool) :=
  ⟨rfl, rfl, rfl⟩

/-- C7: when a file exists at `cache_path` and `force` is false,
`fetch_and_cache` returns its contents unchanged with the file system
untouched, the result does not depend on the network at all (no request is
performed), and a second unforced call returns the identical text again. -/
theorem C7_cache_hit_idempotent (net net2 : String → Nat → HttpResp)
    (fs : List (String × String)) (url cache_path : String) (timeout : Nat)
    (txt : String) (h : fsRead fs cache_path = some txt) :
    fetch_and_cache net fs url cache_path timeout false = (.ok txt, fs)
    ∧ fetch_and_cache net fs url cache_path timeout false =
        fetch_and_cache net2 fs url cache_path timeout false
    ∧ fetch_and_cache net
        (fetch_and_cache net fs url cache_path timeout false).2 url cache_path
        timeout false = (.ok txt, fs) := by
  have e : ∀ m : String → Nat → HttpResp,
      fetch_and_cache m fs url cache_path timeout false = (.ok txt, fs) := by
    intro m
    unfold fetch_and_cache
    rw [h]
  exact ⟨e net, (e net).trans (e net2).symm, by rw [e net]; exact e net⟩

/-- Witness for C7 on a one-file cache. -/
theorem C7_cache_hit_idempotent_witness :
    fsRead [("cache/models.html", "hello")] "cache/models.html" = some "hello"
    ∧ fetch_and_cache (fun _ _ => ⟨200, "fresh"⟩)
        [("cache/models.html", "hello")] "https://x" "cache/models.html" 30
        false = (.ok "hello", [("cache/models.html", "hello")]) :=
  ⟨by decide,
   (C7_cache_hit_idempotent (fun _ _ => ⟨200, "fresh"⟩)
     (fun _ _ => ⟨200, "fresh"⟩) [("cache/models.html", "hello")] "https://x"
     "cache/models.html" 30 "hello" (by decide)).1⟩

/-- C10: on a cache miss (no file at `cache_path`, or `force`), a
non-success HTTP status (400–599, the range `raise_for_status` raises on)
makes `fetch_and_cache` raise and leaves the file system unchanged — nothing
is written at `cache_path`. -/
theorem C10_error_writes_nothing (net : String → Nat → HttpResp)
    (fs : List (String × String)) (url cache_path : String) (timeout : Nat)
    (force : Bool)
    (hmiss : fsRead fs cache_path = Option.none ∨ force = true)
    (hstatus : 400 ≤ (net url timeout).status_code
      ∧ (net url timeout).status_code < 600) :
    fetch_and_cache net fs url cache_path timeout force =
      (.error "HTTPError", fs) := by
  unfold fetch_and_cache
  rcases hmiss with h | h
  · rw [h]
    cases force <;> simp [if_pos hstatus]
  · subst h
    cases hr : fsRead fs cache_path <;> simp [if_pos hstatus]

/-- Witness for C10: a 404 on an empty cache. -/
theorem C10_error_writes_nothing_witness :
    (fsRead ([] : List (String × String)) "cache/models.html" = Option.none
      ∨ false = true)
    ∧ (400 ≤ ((fun (_ : String) (_ : Nat) => (⟨404, "not found"⟩ : HttpResp))
          "https://x" 30).status_code
        ∧ ((fun (_ : String) (_ : Nat) => (⟨404, "not found"⟩ : HttpResp))
          "https://x" 30).status_code < 600)
    ∧ fetch_and_cache (fun _ _ => ⟨404, "not found"⟩) [] "https://x"
        "cache/models.html" 30 false = (.error "HTTPError", []) :=
  ⟨Or.inl (by decide), ⟨by decide, by decide⟩,
   C10_error_writes_nothing (fun _ _ => ⟨404, "not found"⟩) [] "https://x"
     "cache/models.html" 30 false (Or.inl (by decide))
     ⟨by decide, by decide⟩⟩

/-- The object branch of `flatten_config`, written out: one `"object"` row is
appended and the pool gains the record exactly when its `obj_id` is new. -/
theorem flatten_obj_step (a kp ty r : String)
    (rows : List ConfigEntryRecord) (pool : List ObjectRecord) :
    flatten_config a (.obj ty r) kp rows pool =
      (rows ++ [⟨a, kp, "object", .str "", object_id ty r⟩],
       if pool.any (fun q => q.obj_id = object_id ty r) then pool
       else pool ++ [⟨object_id ty r, ty, stable_repr r⟩]) := rfl

/-- `object_id` factors through the stabilized representation. -/
theorem object_id_eq_oidOf (ty r : String) :
    object_id ty r = oidOf ty (stable_repr r) := rfl

/-- Once the pool holds the shared `obj_id`, flattening any list of opaque
values of that type and stabilized representation leaves the pool as is. -/
theorem flattenItems_pool_mem (ty sr : String) :
    ∀ (reprs : List String), (∀ r ∈ reprs, stable_repr r = sr) →
    ∀ (a kp : String) (i : Nat) (rows : List ConfigEntryRecord)
      (pool : List ObjectRecord),
      pool.any (fun q => q.obj_id = oidOf ty sr) = true →
      (flattenItems a (objList ty reprs) kp i rows pool).2 = pool := by
  intro reprs
  induction reprs with
  | nil => intro _ a kp i rows pool _; rfl
  | cons r rest ih =>
      intro hall a kp i rows pool hmem
      have hr : stable_repr r = sr := hall r (List.mem_cons_self r rest)
      have hoid : object_id ty r = oidOf ty sr := by
        rw [object_id_eq_oidOf, hr]
      show (flattenItems a (.cons (.obj ty r) (objList ty rest)) kp i rows
        pool).2 = pool
      simp only [flattenItems]
      rw [flatten_obj_step, hoid]
      simp only [if_pos hmem]
      exact ih (fun q hq => hall q (List.mem_cons_of_mem r hq)) a kp (i + 1)
        _ pool hmem

/-- Flattening a list of opaque values that all share one declared type and
one stabilized representation either leaves the pool unchanged (their id was
already present, or the list is empty) or appends exactly the one shared
record. -/
theorem flattenItems_pool_cases (ty sr : String) :
    ∀ (reprs : List String), (∀ r ∈ reprs, stable_repr r = sr) →
    ∀ (a kp : String) (i : Nat) (rows : List ConfigEntryRecord)
      (pool : List ObjectRecord),
      (flattenItems a (objList ty reprs) kp i rows pool).2 = pool
      ∨ (flattenItems a (objList ty reprs) kp i rows pool).2 =
          pool ++ [⟨oidOf ty sr, ty, sr⟩] := by
  intro reprs hall a kp i rows pool
  cases reprs with
  | nil => exact Or.inl rfl
  | cons r rest =>
      have hr : stable_repr r = sr := hall r (List.mem_cons_self r rest)
      have hoid : object_id ty r = oidOf ty sr := by
        rw [object_id_eq_oidOf, hr]
      have hrest : ∀ q ∈ rest, stable_repr q = sr :=
        fun q hq => hall q (List.mem_cons_of_mem r hq)
      by_cases hmem : pool.any (fun q => q.obj_id = oidOf ty sr) = true
      · exact Or.inl (flattenItems_pool_mem ty sr (r :: rest) hall a kp i
          rows pool hmem)
      · right
        show (flattenItems a (.cons (.obj ty r) (objList ty rest)) kp i rows
          pool).2 = pool ++ [⟨oidOf ty sr, ty, sr⟩]
        simp only [flattenItems]
        rw [flatten_obj_step, hoid, hr]
        simp only [if_neg hmem]
        have hmem2 : (pool ++ [(⟨oidOf ty sr, ty, sr⟩ : ObjectRecord)]).any
            (fun q => q.obj_id = oidOf ty sr) = true := by
          simp [List.any_append]
        exact flattenItems_pool_mem ty sr rest hrest a kp (i + 1) _ _ hmem2

/-- C1: for opaque (non-scalar, non-mapping, non-sequence) values of one
declared type whose stabilized representations (repr with every `0x` + hex
substring replaced by the placeholder) agree, `object_id` agrees; the
identifier is the first 12 hex characters of the SHA-1 of the declared type
joined with the stable representation; and flattening any list of such
values grows the object pool by at most one record. -/
theorem C1_object_id_dedup (ty r1 r2 : String)
    (h : stable_repr r1 = stable_repr r2) :
    object_id ty r1 = object_id ty r2
    ∧ object_id ty r1 = pySlice (sha1_hex (ty ++ "|" ++ stable_repr r1)) 12
    ∧ ∀ (reprs : List String),
        (∀ r ∈ reprs, stable_repr r = stable_repr r1) →
        ∀ (a kp : String) (rows : List ConfigEntryRecord)
          (pool : List ObjectRecord),
          (flatten_config a (.list (objList ty reprs)) kp rows pool).2.length
            ≤ pool.length + 1 := by
  refine ⟨by unfold object_id; rw [h], rfl, ?_⟩
  intro reprs hall a kp rows pool
  have e : flatten_config a (.list (objList ty reprs)) kp rows pool =
      flattenItems a (objList ty reprs) kp 0 rows pool := rfl
  rw [e]
  rcases flattenItems_pool_cases ty (stable_repr r1) reprs hall a kp 0 rows
    pool with hc | hc
  · rw [hc]; omega
  · rw [hc, List.length_append]; simp

/-- Witness for C1: two `Foo` objects whose raw reprs differ only in the
memory address collapse to one pool entry. -/
theorem C1_object_id_dedup_witness :
    stable_repr "<Foo object at 0x7f81>" = stable_repr "<Foo object at 0x9e2>"
    ∧ (∀ r ∈ ["<Foo object at 0x7f81>", "<Foo object at 0x9e2>"],
        stable_repr r = stable_repr "<Foo object at 0x7f81>")
    ∧ (flatten_config "AutoRNN"
        (.list (objList "<class \x27Foo\x27>"
          ["<Foo object at 0x7f81>", "<Foo object at 0x9e2>"]))
        "default_config.loss" [] []).2.length ≤ 1 :=
  ⟨by decide, by decide,
   (C1_object_id_dedup "<class \x27Foo\x27>" "<Foo object at 0x7f81>"
      "<Foo object at 0x9e2>" (by decide)).2.2
     ["<Foo object at 0x7f81>", "<Foo object at 0x9e2>"] (by decide)
     "AutoRNN" "default_config.loss" [] []⟩

/-- The qualname deduplication keeps, for every qualname, exactly the first
row carrying it: searching the deduplicated list equals searching the
original. -/
theorem dropDupFirst_find (q : String) :
    ∀ (rows : List CatalogRow) (seen : List String), q ∉ seen →
      (dropDupFirst seen rows).find? (fun r => r.qualname = q) =
        rows.find? (fun r => r.qualname = q) := by
  intro rows
  induction rows with
  | nil => intro seen _; rfl
  | cons r rest ih =>
      intro seen hq
      simp only [dropDupFirst]
      by_cases hmem : r.qualname ∈ seen
      · rw [if_pos hmem, ih seen hq]
        have hne : r.qualname ≠ q := fun e => hq (e ▸ hmem)
        simp [List.find?, hne]
      · rw [if_neg hmem]
        by_cases hpq : r.qualname = q
        · simp [List.find?, hpq]
        · have hq2 : q ∉ r.qualname :: seen := by
            intro hc
            rcases List.mem_cons.mp hc with e | e
            · exact hpq e.symm
            · exact hq e
          rw [show ((r :: dropDupFirst (r.qualname :: seen) rest).find?
              (fun x => x.qualname = q)) =
              ((dropDupFirst (r.qualname :: seen) rest).find?
              (fun x => x.qualname = q)) by simp [List.find?, hpq]]
          rw [ih (r.qualname :: seen) hq2]
          simp [List.find?, hpq]

/-- The deduplicated rows carry pairwise distinct qualnames, none of them in
`seen`. -/
theorem dropDupFirst_nodup :
    ∀ (rows : List CatalogRow) (seen : List String),
      ((dropDupFirst seen rows).map (fun r => r.qualname)).Nodup
      ∧ ∀ q ∈ (dropDupFirst seen rows).map (fun r => r.qualname), q ∉ seen := by
  intro rows
  induction rows with
  | nil => intro seen; exact ⟨List.nodup_nil, by simp [dropDupFirst]⟩
  | cons r rest ih =>
      intro seen
      simp only [dropDupFirst]
      by_cases hmem : r.qualname ∈ seen
      · rw [if_pos hmem]; exact ih seen
      · rw [if_neg hmem]
        obtain ⟨hnd, hnotin⟩ := ih (r.qualname :: seen)
        refine ⟨?_, ?_⟩
        · simp only [List.map_cons, List.nodup_cons]
          exact ⟨fun hq => (hnotin _ hq) (List.mem_cons_self _ _), hnd⟩
        · intro q hq
          simp only [List.map_cons, List.mem_cons] at hq
          rcases hq with rfl | hq
          · exact hmem
          · exact fun hqseen => (hnotin q hq) (List.mem_cons_of_mem _ hqseen)

/-- Once a parameter name is present in the master table, later collection
steps never change its record. -/
theorem build_params_master_keeps (pname : String) :
    ∀ (entries : List (String × String)) (m : List ParamRecord),
      m.any (fun r => r.param = pname) = true →
      (build_params_master entries m).find? (fun r => r.param = pname) =
        m.find? (fun r => r.param = pname) := by
  intro entries
  induction entries with
  | nil => intro m _; rfl
  | cons e rest ih =>
      intro m hm
      obtain ⟨p2, a2⟩ := e
      simp only [build_params_master, params_master_step]
      by_cases hp : m.any (fun r => decide (r.param = p2)) = true
      · rw [if_pos hp]
        exact ih m hm
      · rw [if_neg hp]
        have hany : (m ++ [(⟨p2, classify_param p2, a2⟩ : ParamRecord)]).any
            (fun r => r.param = pname) = true := by
          rw [List.any_append, hm]; rfl
        rw [ih _ hany]
        obtain ⟨y, hy⟩ := Option.isSome_iff_exists.mp
          (List.find?_isSome.mpr (List.any_eq_true.mp hm))
        rw [List.find?_append, hy]
        rfl

/-- The first occurrence of a parameter name fixes its master record: group
classification and annotation come from that occurrence, whatever follows. -/
theorem build_params_master_first (pname annot0 : String)
    (entries : List (String × String)) (m : List ParamRecord)
    (hm : m.any (fun r => r.param = pname) = false) :
    (build_params_master ((pname, annot0) :: entries) m).find?
        (fun r => r.param = pname) =
      some ⟨pname, classify_param pname, annot0⟩ := by
  simp only [build_params_master, params_master_step]
  rw [if_neg (by rw [hm]; exact Bool.false_ne_true)]
  have hany : (m ++ [(⟨pname, classify_param pname, annot0⟩ : ParamRecord)]).any
      (fun r => r.param = pname) = true := by
    rw [List.any_append, hm]; simp
  rw [build_params_master_keeps pname entries _ hany]
  have hnone : m.find? (fun r => r.param = pname) = Option.none := by
    rw [List.find?_eq_none]
    intro x hx hpx
    have : m.any (fun r => r.param = pname) = true :=
      List.any_eq_true.mpr ⟨x, hx, hpx⟩
    rw [hm] at this
    exact Bool.false_ne_true this
  rw [List.find?_append, hnone]
  simp [List.find?]

/-- C2 counterexample: with two model rows sharing qualname `m.X`, the
deduplication of `_collect_models_only` (pandas `drop_duplicates`, default
`keep="first"`) keeps the FIRST row, not the last write the claim asserts. -/
theorem C2_counterexample :
    drop_duplicates_qualname
        [⟨"model", "X", "m", "m.X", "first doc"⟩,
         ⟨"model", "X", "m", "m.X", "second doc"⟩] =
      [⟨"model", "X", "m", "m.X", "first doc"⟩]
    ∧ (⟨"model", "X", "m", "m.X", "first doc"⟩ : CatalogRow) ≠
        ⟨"model", "X", "m", "m.X", "second doc"⟩ := by
  exact ⟨by decide, by decide⟩

/-- C2 (amended): when the same key occurs more than once during collection,
deduplication keeps the FIRST occurrence for a ModelRecord — pandas
`drop_duplicates(subset=["qualname"])` keeps the first row of each qualified
name and leaves at most one row per qualname — and likewise the first write
for a ParamRecord, whose group classification and annotation are fixed at
first sight. -/
theorem C2_first_write_dedup :
    (∀ (rows : List CatalogRow) (q : String),
        (drop_duplicates_qualname rows).find? (fun r => r.qualname = q) =
          rows.find? (fun r => r.qualname = q))
    ∧ (∀ rows : List CatalogRow,
        ((drop_duplicates_qualname rows).map (fun r => r.qualname)).Nodup)
    ∧ (∀ (m : List ParamRecord) (entries : List (String × String))
          (pname annot0 : String),
        m.any (fun r => r.param = pname) = false →
        (build_params_master ((pname, annot0) :: entries) m).find?
            (fun r => r.param = pname) =
          some ⟨pname, classify_param pname, annot0⟩) :=
  ⟨fun rows q => dropDupFirst_find q rows [] (List.not_mem_nil q),
   fun rows => (dropDupFirst_nodup rows []).1,
   fun m entries pname annot0 hm =>
     build_params_master_first pname annot0 entries m hm⟩

/-- Witness for C2: the parameter `h` first seen with annotation `int` keeps
group `forecasting` and annotation `int` even when seen again later with a
different annotation. -/
theorem C2_first_write_dedup_witness :
    (([] : List ParamRecord).any (fun r => r.param = "h") = false)
    ∧ (build_params_master [("h", "int"), ("h", "str")] []).find?
        (fun r => r.param = "h") = some ⟨"h", "forecasting", "int"⟩ :=
  ⟨by decide,
   by
    have := C2_first_write_dedup.2.2 [] [("h", "str")] "h" "int" (by decide)
    rw [this]
    decide⟩

/-- Every entry of `dictSet m k v` is either the written pair or an entry of
`m`. -/
theorem dictSet_mem (m : List (String × String)) (k v : String)
    (p : String × String) (hp : p ∈ dictSet m k v) :
    p = (k, v) ∨ p ∈ m := by
  unfold dictSet at hp
  by_cases hk : m.any (fun q => q.1 = k) = true
  · rw [if_pos hk] at hp
    obtain ⟨q, hq, he⟩ := List.mem_map.mp hp
    by_cases hqk : q.1 = k
    · rw [if_pos hqk] at he
      exact Or.inl he.symm
    · rw [if_neg hqk] at he
      exact Or.inr (he ▸ hq)
  · rw [if_neg hk] at hp
    rcases List.mem_append.mp hp with h | h
    · exact Or.inr h
    · exact Or.inl (List.mem_singleton.mp h)

/-- Every entry written by `insertNames` carries the active family. -/
theorem insertNames_mem (f : String) :
    ∀ (names : List String) (m : List (String × String))
      (p : String × String), p ∈ insertNames m names f →
      p.2 = f ∨ p ∈ m := by
  intro names
  induction names with
  | nil => intro m p hp; exact Or.inr hp
  | cons n rest ih =>
      intro m p hp
      simp only [insertNames] at hp
      rcases ih (dictSet m n f) p hp with h | h
      · exact Or.inl h
      · rcases dictSet_mem m n f p h with h2 | h2
        · exact Or.inl (by rw [h2])
        · exact Or.inr h2

/-- While no line is detected as a header, the loop never leaves the
`family = None` state and writes nothing. -/
theorem parseLoop_none :
    ∀ (lines : List String) (m : List (String × String)),
      (∀ ln ∈ lines, headerHit ln = false) →
      parseLoop Option.none lines m = m := by
  intro lines
  induction lines with
  | nil => intro m _; rfl
  | cons ln rest ih =>
      intro m hall
      have hh : headerHit ln = false := hall ln (List.mem_cons_self ln rest)
      simp only [parseLoop, hh, Bool.false_eq_true, if_false]
      exact ih m (fun x hx => hall x (List.mem_cons_of_mem ln hx))

/-- While a family `f` is active and no further header appears, every map
entry after the loop either carries `f` or was already present. -/
theorem parseLoop_attribution (f : String) :
    ∀ (lines : List String) (m : List (String × String)),
      (∀ ln ∈ lines, headerHit ln = false) →
      ∀ p ∈ parseLoop (some f) lines m, p.2 = f ∨ p ∈ m := by
  intro lines
  induction lines with
  | nil => intro m _ p hp; exact Or.inr hp
  | cons ln rest ih =>
      intro m hall p hp
      have hh : headerHit ln = false := hall ln (List.mem_cons_self ln rest)
      simp only [parseLoop, hh, Bool.false_eq_true, if_false] at hp
      rcases ih (insertNames m (findAuto ln) f)
        (fun x hx => hall x (List.mem_cons_of_mem ln hx)) p hp with h | h
      · exact Or.inl h
      · exact insertNames_mem f (findAuto ln) m p h

/-- C8 counterexample: header detection is case-SENSITIVE.  The same content
with a lower-cased header assigns no family at all, while the exact-case
header assigns `AutoRNN` to `RNN` — refuting the claimed case-insensitive
detection. -/
theorem C8_counterexample :
    parse_automodel_family_map "rnn-based models\nAutoRNN" = []
    ∧ parse_automodel_family_map "RNN-Based Models\nAutoRNN" =
        [("AutoRNN", "RNN")] := by
  exact ⟨by decide, by decide⟩

/-- C8 (amended): the parser detects section headers by a case-SENSITIVE
substring test against the fixed family labels (only the classification of a
detected header into its family name is case-insensitive); while no header
has been detected, no identifier is assigned a family; once a family is
active, every map entry produced under it carries that family (until the
next header switches it); and the parser is a total function — malformed
input degrades to "no family", never to a failure.  The closed conjunct
shows the end-to-end attribution on an exact-case HTML fragment. -/
theorem C8_family_attribution :
    (∀ (lines : List String) (m : List (String × String)),
        (∀ ln ∈ lines, headerHit ln = false) →
        parseLoop Option.none lines m = m)
    ∧ (∀ (f : String) (lines : List String) (m : List (String × String)),
        (∀ ln ∈ lines, headerHit ln = false) →
        ∀ p ∈ parseLoop (some f) lines m, p.2 = f ∨ p ∈ m)
    ∧ parse_automodel_family_map
        "<h2>RNN-Based Models</h2><p>AutoRNN and AutoTFT</p>" =
        [("AutoRNN", "RNN"), ("AutoTFT", "RNN")]
    ∧ headerHit "rnn-based models" = false
    ∧ headerHit "RNN-Based Models" = true
    ∧ normFamily "ANY case rnn-based HEADER" = "RNN" :=
  ⟨fun lines m h => parseLoop_none lines m h,
   fun f lines m h => parseLoop_attribution f lines m h,
   by decide, by decide, by decide, by decide⟩

/-- Witness for C8: a header-free prefix assigns nothing; an active family
is attributed to every entry written under it. -/
theorem C8_family_attribution_witness :
    (∀ ln ∈ ["intro text", "AutoX before any header"], headerHit ln = false)
    ∧ parseLoop Option.none ["intro text", "AutoX before any header"] [] = []
    ∧ (("AutoX", "RNN") ∈ parseLoop (some "RNN") ["see AutoX here"] [] →
        ("AutoX", "RNN").2 = "RNN" ∨ ("AutoX", "RNN") ∈
          ([] : List (String × String))) :=
  ⟨by decide,
   C8_family_attribution.1 ["intro text", "AutoX before any header"] []
     (by decide),
   C8_family_attribution.2.1 "RNN" ["see AutoX here"] [] (by decide)
     ("AutoX", "RNN")⟩
